import Mathlib

/-!
Shallow embedding of `backup.py` (Dropbox Business backup tool) and proofs
about its specification claims.

Conventions of the embedding:
* Python machine integers and byte counts are modelled by `Nat`; the
  `datetime` values compared by `should_download` are modelled by `Int`
  timestamps (comparison is the only operation performed on them).
* The float literal `1e6` in the source is exactly the integer 1000000 in
  IEEE double precision, and `1e6 * args.maxsize` is exact for every
  realistic `maxsize`, so the size filter is modelled with exact integer
  arithmetic.
* Generators are modelled by the list of items they yield, in yield order.
* Fallible operations of the runtime (directory creation, download) are
  modelled by oracle functions supplied in an environment record, and
  Python exception propagation by `Except`.
-/

namespace Backup

/-- Metadata of a file entry returned by the Dropbox folder listing
(`dropbox.files.FileMetadata`): the fields the program reads. -/
structure FileMeta where
  id : String
  path_display : String
  size : Nat
  server_modified : Int
deriving DecidableEq, Repr

/-- A team member as used by the program: the identity used for
`team.as_user` calls plus the display name that gets printed. -/
structure Member where
  team_member_id : String
  display_name : String
deriving DecidableEq, Repr

/-- The `File` wrapper class of `backup.py`: pairs a file entry with the
member through whose view it was discovered.  Its Python `__hash__` is
`hash(self.file.id)` and `__eq__` compares `file.id` only. -/
structure File where
  file : FileMeta
  member : Member
deriving DecidableEq, Repr

/-- The fields of `argparse.Namespace` that the modelled functions read:
`maxsize` (MB), `since` (optional timestamp cutoff), `out` (output root)
and `limit` (optional per-member item cap, parsed from `--limit`). -/
structure Args where
  maxsize : Nat
  since : Option Int
  out : String
  limit : Option Nat
deriving DecidableEq, Repr

/-- Membership test used by `SetQueue._put` for `item not in self.all_items`:
Python set membership locates an element with equal hash that compares equal
under `File.__eq__`, i.e. an element with the same `file.id`. -/
def fileMem (items : List File) (item : File) : Bool :=
  items.any (fun x => x.file.id == item.file.id)

/-- State of a `SetQueue`: the FIFO contents `q` inherited from
`queue.Queue` and the historical set `all_items` of every item ever
accepted.  The Python set is modelled as the list of accepted items in
insertion order, with membership taken by `fileMem`. -/
structure SetQueue where
  q : List File
  all_items : List File
deriving DecidableEq, Repr

/-- A fresh `SetQueue()` as built by `list_and_save`. -/
def SetQueue.empty : SetQueue := { q := [], all_items := [] }

/-- The overridden `SetQueue._put`: append the item to the FIFO and record
it in `all_items` only when it is not already in `all_items`; otherwise a
silent no-op. -/
def SetQueue.put (s : SetQueue) (item : File) : SetQueue :=
  if fileMem s.all_items item then s
  else { q := s.q ++ [item], all_items := s.all_items ++ [item] }

/-- Outcome of `queue.Queue.get()` as called by the drain loop, i.e. with
`block=True` and `timeout=None`: it returns the oldest item when one is
present, and otherwise blocks until an item arrives.  With these default
arguments `get` never raises `queue.Empty`; that exception is raised only
when `block=False` or a timeout expires. -/
inductive GetOutcome where
  | item (f : File) (rest : SetQueue)
  | blocked
deriving DecidableEq, Repr

/-- Semantics of `file_queue.get()` in the drain loop of `list_and_save`:
the run is single threaded and the fill phase is over, so no producer can
ever make a blocked `get` return. -/
def SetQueue.get (s : SetQueue) : GetOutcome :=
  match s.q with
  | [] => GetOutcome.blocked
  | f :: rest => GetOutcome.item f { s with q := rest }

/-- The sequence of entries delivered by successive `pop` (`get`) calls on
the queue, i.e. the FIFO contents in order. -/
def popAll (s : SetQueue) : List File :=
  match h : s.q with
  | [] => []
  | f :: rest => f :: popAll { s with q := rest }
termination_by s.q.length
decreasing_by
  simp [h]

/-- Running a sequence of `put` calls on a fresh queue. -/
def runPushes (pushes : List File) : SetQueue :=
  pushes.foldl SetQueue.put SetQueue.empty

/-- Number of entries in a list of files whose unique identifier is `k`. -/
def countId (k : String) (files : List File) : Nat :=
  (files.filter (fun f => f.file.id == k)).length

/-- Whether some already-accepted item has identifier `k`. -/
def seen (s : SetQueue) (k : String) : Bool :=
  s.all_items.any (fun f => f.file.id == k)

/-- The filter `should_download` of `backup.py`: reject files larger than
`1e6 * args.maxsize` bytes (strict), then reject files with
`args.since > file.server_modified` (strict) when a cutoff is set, and
accept everything else. -/
def should_download (file : FileMeta) (args : Args) : Bool :=
  if file.size > 1000000 * args.maxsize then false
  else
    match args.since with
    | some since => if since > file.server_modified then false else true
    | none => true

/-- The wrapper produced by the `limit` decorator of `backup.py`, applied to
the sequence of items the wrapped generator yields: it re-yields an item
while its index is below the bound and breaks out of the loop at the bound,
so the wrapped sequence is the first `n` items of the inner sequence.  In
the source the decorator is applied to `list_files` as `@limit(10)` with
the literal bound 10. -/
def limit (n : Nat) (xs : List α) : List α := xs.take n

/-- An entry of a folder listing as `list_files` sees it.  The source
classifies an entry by attribute presence: `should_download` reads
`entry.size`, which raises `AttributeError` exactly for folder entries, and
the handler recurses into the folder.  The embedding makes that shape
distinction a constructor tag.  A folder carries the entries of its own
listing, concatenated over the pages that the `while folder_list.has_more`
loop of the source fetches in cursor order. -/
inductive REntry where
  | file (meta : FileMeta)
  | folder (path_display : String) (entries : List REntry)

/-- The undecorated generator body of `list_files`: walk the listing
entries in order; a file entry passing `should_download` yields
`File(entry, member)`; a folder entry is recursed into with
`yield from list_files(...)`, where the recursive call goes through the
`@limit(10)` decorator and is therefore truncated to its first 10 items. -/
def filesOfEntries (member : Member) (args : Args) : List REntry → List File
  | [] => []
  | REntry.file meta :: rest =>
    (if should_download meta args then [{ file := meta, member := member }] else []) ++
      filesOfEntries member args rest
  | REntry.folder _ sub :: rest =>
    limit 10 (filesOfEntries member args sub) ++ filesOfEntries member args rest

/-- The decorated `list_files` of `backup.py` as invoked on a member: the
generator body truncated by the `@limit(10)` wrapper. -/
def list_files (member : Member) (args : Args) (entries : List REntry) : List File :=
  limit 10 (filesOfEntries member args entries)

/-- One response of `team_members_list` or `team_members_list_continue`:
the page of members, the `has_more` flag and the continuation cursor.
Cursors are modelled as natural numbers. -/
structure MembersPage where
  members : List Member
  has_more : Bool
  cursor : Nat
deriving DecidableEq, Repr

/-- The member-listing side of the Dropbox team client: the response of the
initial `team_members_list()` call and, for each cursor, the response of
`team_members_list_continue(cursor)`. -/
structure TeamService where
  first : MembersPage
  cont : Nat → MembersPage

/-- The chain of pages the enumerator can reach: page 0 is the initial
response and page `i + 1` is the response for the cursor of page `i`. -/
def membersChain (svc : TeamService) : Nat → MembersPage
  | 0 => svc.first
  | i + 1 => svc.cont (membersChain svc i).cursor

/-- The page loop of `list_members`, fuelled: yield the members of the
current page, then, `while members_list.has_more`, fetch the next page via
the cursor and yield its members.  The fuel bounds how many continuation
requests the model may issue; the theorems require enough fuel for the
finite chain, and the result is then independent of the fuel. -/
def list_members_aux (svc : TeamService) : Nat → MembersPage → List Member
  | 0, page => page.members
  | fuel + 1, page =>
    page.members ++
      (if page.has_more then list_members_aux svc fuel (svc.cont page.cursor) else [])

/-- The `list_members` generator of `backup.py`: run the page loop from the
initial `team_members_list()` response. -/
def list_members (svc : TeamService) (fuel : Nat) : List Member :=
  list_members_aux svc fuel svc.first

/-- Membership test for Python `string.printable`, the set the source
filters with (`c in string.printable`).  `string.printable` is the 100
ASCII characters Python considers printable: `digits`, `ascii_letters`,
`punctuation` and `whitespace`, i.e. exactly the code points 0x20 to 0x7E
together with tab (9), newline (10), vertical tab (11), form feed (12) and
carriage return (13). -/
def pythonStringPrintable (c : Char) : Bool :=
  (32 ≤ c.toNat && c.toNat ≤ 126) ||
    (9 ≤ c.toNat && c.toNat ≤ 13)

/-- The `remove_unprintable` function of `backup.py`:
`join(c for c in text if c in string.printable)`. -/
def remove_unprintable (text : String) : String :=
  String.mk (text.toList.filter pythonStringPrintable)

/-- Whether a path string begins with the POSIX separator, i.e. Python
`b.startswith(sep)` inside `posixpath.join`. -/
def beginsWithSep (s : String) : Bool :=
  match s.toList with
  | [] => false
  | c :: _ => c = '/'

/-- Whether a path string ends with the POSIX separator, i.e. Python
`path.endswith(sep)` inside `posixpath.join`. -/
def endsWithSep (s : String) : Bool :=
  match s.toList.reverse with
  | [] => false
  | c :: _ => c = '/'

/-- POSIX `os.path.join` for two components, exactly as `posixpath.join`
computes it: an absolute second component replaces the first; otherwise the
components are joined with a single separator unless the first is empty or
already ends in one. -/
def os_path_join (a b : String) : String :=
  if beginsWithSep b then b
  else if a = "" || endsWithSep a then a ++ b
  else a ++ "/" ++ b

/-- POSIX `os.path.dirname`: the prefix up to the last separator, with
trailing separators stripped unless the result consists of separators
only. -/
def dirname (p : String) : String :=
  let cs := p.toList
  let head := (cs.reverse.dropWhile (fun c => c ≠ '/')).reverse
  if head.isEmpty then ""
  else if head.all (fun c => c = '/') then String.mk head
  else String.mk ((head.reverse.dropWhile (fun c => c = '/')).reverse)

/-- The local target path computed by `save_file`:
`os.path.join(root, remove_unprintable(file.file.path_display))`.  The
source comment above this line reads `Ignore leading slash in path`. -/
def save_file_local_path (root : String) (path_display : String) : String :=
  os_path_join root (remove_unprintable path_display)

/-- Outcome of `os.makedirs(dir, exist_ok=True)` as `save_file` models it:
success (pre-existing directories are not an error thanks to
`exist_ok=True`), or the `FileNotFoundError` the source documents as raised
when the path is too long. -/
inductive MakedirsResult where
  | ok
  | fileNotFound (msg : String)
deriving DecidableEq, Repr

/-- The runtime effects `save_file` performs, as oracles: directory
creation for a given path, and
`team.as_user(member_id).files_download_to_file(local_path, remote_path)`,
which either succeeds or raises some exception (modelled as a message). -/
structure DownloadEnv where
  makedirs : String → MakedirsResult
  download : (member_id : String) → (local_path : String) → (remote_path : String) →
    Except String Unit

/-- How a `save_file` call ended, for the log: the file was saved at the
local path, directory creation failed and the file was abandoned, or the
download raised and was logged by `logger.exception`. -/
inductive SaveOutcome where
  | saved (local_path : String)
  | dirCreateFailed (msg : String)
  | downloadFailed (local_path : String) (msg : String)
deriving DecidableEq, Repr

/-- The `save_file` function of `backup.py`.  A `Except.error` result would
model an exception escaping the function; the two `try` blocks of the
source are the two `match` arms that turn a failure into an `Except.ok`
outcome instead. -/
def save_file (env : DownloadEnv) (file : File) (root : String) :
    Except String SaveOutcome :=
  let printable_path := remove_unprintable file.file.path_display
  let local_path := os_path_join root printable_path
  match env.makedirs (dirname local_path) with
  | MakedirsResult.fileNotFound msg =>
    Except.ok (SaveOutcome.dirCreateFailed msg)
  | MakedirsResult.ok =>
    match env.download file.member.team_member_id local_path file.file.path_display with
    | Except.error msg => Except.ok (SaveOutcome.downloadFailed local_path msg)
    | Except.ok _ => Except.ok (SaveOutcome.saved local_path)

/-- How the drain loop of `list_and_save` ended.  `emptySignalled` is the
`except queue.Empty` branch that logs `File queue is empty` and breaks;
`blockedForever` means the loop is parked inside a `get` call that can
never return. -/
inductive DrainEnd where
  | emptySignalled
  | blockedForever
deriving DecidableEq, Repr

/-- The drain loop of `list_and_save`:
`while True: save_file(team, file_queue.get(), args.out)` with
`except queue.Empty: break`.  Each `get` on a non-empty queue removes the
oldest entry, which is handed to `save_file` (collected in the first
component, in order); a `get` on the empty queue blocks forever, so the
`queue.Empty` handler is unreachable. -/
def drainLoop (s : SetQueue) : List File × DrainEnd :=
  match hg : s.get with
  | GetOutcome.blocked => ([], DrainEnd.blockedForever)
  | GetOutcome.item f rest =>
    let r := drainLoop rest
    (f :: r.1, r.2)
termination_by s.q.length
decreasing_by
  cases hq : s.q with
  | nil => simp [SetQueue.get, hq] at hg
  | cons a t =>
    simp [SetQueue.get, hq] at hg
    simp [← hg.2, hq]

/-- The fill phase of `list_and_save`: for each member in enumeration
order, exhaust `list_files` for that member and `put` every yielded `File`
into the queue.  The remote tree visible to each member is supplied
alongside the member. -/
def fill (members : List (Member × List REntry)) (args : Args) : SetQueue :=
  members.foldl
    (fun acc mp => (list_files mp.1 args mp.2).foldl SetQueue.put acc)
    SetQueue.empty

/-- The fill-then-drain orchestration of `list_and_save`, returning the
files handed to `save_file` in order and how the drain loop ended. -/
def list_and_save (args : Args) (members : List (Member × List REntry)) :
    List File × DrainEnd :=
  drainLoop (fill members args)

/-- A Python object as seen by `File.__eq__`: it may or may not expose a
`file` attribute, and that attribute may or may not expose an `id`
attribute.  `none` models an absent attribute, whose access raises
`AttributeError`. -/
structure AttrFile where
  id : Option String
deriving DecidableEq, Repr

/-- An arbitrary comparison operand for `File.__eq__`. -/
structure PyObj where
  file : Option AttrFile
deriving DecidableEq, Repr

/-- The `File.__eq__` of `backup.py`: evaluate
`self.file.id == other.file.id` and turn an `AttributeError` from either
attribute access into `False`. -/
def File.eq (self : File) (other : PyObj) : Bool :=
  match other.file with
  | none => false
  | some f =>
    match f.id with
    | none => false
    | some i => self.file.id == i

/-- The `File.__hash__` of `backup.py`, `hash(self.file.id)`, with the
Python hash function abstracted as an arbitrary function on the key it is
applied to. -/
def File.hashWith (h : String → Int) (self : File) : Int :=
  h self.file.id

/-- View of a `File` instance as a comparison operand: it exposes
`file.id`. -/
def File.toPyObj (self : File) : PyObj :=
  { file := some { id := some self.file.id } }

/-! Concrete values used by closed theorems and witnesses. -/

/-- Example member. -/
def memberEx : Member :=
  { team_member_id := "dbmid:alice", display_name := "Alice" }

/-- Second example member. -/
def memberEx2 : Member :=
  { team_member_id := "dbmid:bob", display_name := "Bob" }

/-- Third example member. -/
def memberEx3 : Member :=
  { team_member_id := "dbmid:carol", display_name := "Carol" }

/-- Example file metadata with an absolute Dropbox display path. -/
def metaEx : FileMeta :=
  { id := "id:x1", path_display := "/docs/report.txt", size := 2000000,
    server_modified := 100 }

/-- Example configuration: default 100 MB cap, no since cutoff, no limit. -/
def argsEx : Args :=
  { maxsize := 100, since := none, out := "backup", limit := none }

/-- Example configuration with a configured per-member cap of 5. -/
def argsK5 : Args := { argsEx with limit := some 5 }

/-- Example `File` wrapper. -/
def fileEx : File := { file := metaEx, member := memberEx }

/-- Qualifying file metadata number `n` for the cap experiments. -/
def fmeta (n : Nat) : FileMeta :=
  { id := "id:" ++ toString n, path_display := "/f" ++ toString n, size := 1,
    server_modified := 0 }

/-- The `File` that discovery yields for `fmeta n` under `memberEx`. -/
def fileAt (n : Nat) : File := { file := fmeta n, member := memberEx }

/-- A root listing of 12 qualifying files. -/
def files12 : List REntry :=
  [REntry.file (fmeta 0), REntry.file (fmeta 1), REntry.file (fmeta 2),
   REntry.file (fmeta 3), REntry.file (fmeta 4), REntry.file (fmeta 5),
   REntry.file (fmeta 6), REntry.file (fmeta 7), REntry.file (fmeta 8),
   REntry.file (fmeta 9), REntry.file (fmeta 10), REntry.file (fmeta 11)]

/-- Environment in which directory creation and download succeed. -/
def envOk : DownloadEnv :=
  { makedirs := fun _ => MakedirsResult.ok,
    download := fun _ _ _ => Except.ok () }

/-- Environment in which directory creation fails with the path-too-long
`FileNotFoundError`. -/
def envLongPath : DownloadEnv :=
  { makedirs := fun _ => MakedirsResult.fileNotFound "path too long",
    download := fun _ _ _ => Except.ok () }

/-- Environment in which the download call raises. -/
def envRaise : DownloadEnv :=
  { makedirs := fun _ => MakedirsResult.ok,
    download := fun _ _ _ => Except.error "ApiError" }

/-- Two-page member listing service. -/
def svcEx : TeamService :=
  { first := { members := [memberEx, memberEx2], has_more := true, cursor := 1 },
    cont := fun _ => { members := [memberEx3], has_more := false, cursor := 2 } }

/-- C5: the Filter Predicate accepts a file exactly when its size does not
strictly exceed `maxsize * 1,000,000` bytes and, whenever a since cutoff is
set, its modification time is not strictly before the cutoff; hence a file
exactly at the byte threshold or modified exactly at the cutoff is
accepted, and otherwise the predicate returns false as the claim orders the
rules. -/
theorem C5_should_download_boundaries (f : FileMeta) (a : Args) :
    should_download f a = true ↔
      (f.size ≤ 1000000 * a.maxsize ∧
        ∀ t, a.since = some t → t ≤ f.server_modified) := by
  unfold should_download
  cases h : a.since with
  | none =>
    simp only [h]
    split <;> simp_all
  | some t =>
    simp only [h]
    split
    · simp_all
    · split <;> simp_all

/-- C8: `remove_unprintable` keeps exactly the characters of the ASCII
printable set (Python `string.printable`), in order: its output is always
the subsequence of the input restricted to that set, every kept character
is ASCII, and every non-ASCII character, printable Unicode letters such as
U+00E9 included, is removed. -/
theorem C8_remove_unprintable_is_ascii_filter :
    (∀ s : String,
        (remove_unprintable s).data = s.data.filter pythonStringPrintable ∧
        (remove_unprintable s).data.Sublist s.data ∧
        ∀ c ∈ (remove_unprintable s).data,
          c.toNat < 128 ∧ pythonStringPrintable c = true) ∧
      remove_unprintable (String.mk [Char.ofNat 82, Char.ofNat 233, Char.ofNat 115]) =
        String.mk [Char.ofNat 82, Char.ofNat 115] := by
  constructor
  · intro s
    refine ⟨rfl, List.filter_sublist _, ?_⟩
    intro c hc
    have hp : pythonStringPrintable c = true := (List.mem_filter.mp hc).2
    refine ⟨?_, hp⟩
    unfold pythonStringPrintable at hp
    simp only [Bool.or_eq_true, Bool.and_eq_true, decide_eq_true_eq] at hp
    omega
  · decide

/-- Closed witness for C8: the ASCII letter of a mixed input survives the
filter and is ASCII printable. -/
theorem C8_witness_kept_char :
    Char.ofNat 82 ∈
        (remove_unprintable (String.mk [Char.ofNat 82, Char.ofNat 233])).data ∧
      (Char.ofNat 82).toNat < 128 ∧
      pythonStringPrintable (Char.ofNat 82) = true := by
  refine ⟨by decide, ?_⟩
  exact (C8_remove_unprintable_is_ascii_filter.1
      (String.mk [Char.ofNat 82, Char.ofNat 233])).2.2
    (Char.ofNat 82) (by decide)

/-- C9: `File.__eq__` is total and never raises: it returns true exactly
when the operand exposes a `file.id` attribute chain holding an identifier
equal to the own one, returns false (instead of raising) when the chain is
missing, and both equality and hash depend only on the file identifier,
never on the owning member. -/
theorem C9_file_eq_total_and_id_only (self : File) (other : PyObj) :
    (File.eq self other = true ↔
      ∃ f, other.file = some f ∧ f.id = some self.file.id) ∧
    (∀ m : Member, File.eq { self with member := m } other = File.eq self other) ∧
    (∀ (h : String → Int) (m : Member),
      File.hashWith h { self with member := m } = File.hashWith h self) := by
  refine ⟨?_, fun m => rfl, fun h m => rfl⟩
  unfold File.eq
  cases hf : other.file with
  | none => simp
  | some f =>
    cases hi : f.id with
    | none => simp [hi]
    | some i =>
      simp only [hi, Option.some.injEq, beq_iff_eq]
      constructor
      · intro h
        exact ⟨f, rfl, by simp [hi, h]⟩
      · rintro ⟨f2, hf2, hid⟩
        cases hf2
        rw [hi] at hid
        simpa using hid.symm

/-- C3: the Downloader does not strip the leading path separator —
`os.path.join` discards the output root whenever the sanitized display
path is absolute, and every Dropbox `path_display` is absolute, so the
file is materialized at the absolute remote path, not under the output
root. -/
theorem C3_local_path_escapes_root :
    save_file envOk fileEx "backup" =
        Except.ok (SaveOutcome.saved "/docs/report.txt") ∧
      save_file_local_path "backup" "/docs/report.txt" = "/docs/report.txt" ∧
      save_file_local_path "backup" "/docs/report.txt" ≠ "backup/docs/report.txt" := by
  refine ⟨rfl, rfl, by decide⟩

/-- Auxiliary form of `popAll` on an explicitly given FIFO. -/
theorem popAll_mk (l : List File) :
    ∀ items, popAll { q := l, all_items := items } = l := by
  induction l with
  | nil =>
    intro items
    rw [popAll]
  | cons f rest ih =>
    intro items
    rw [popAll]
    show f :: popAll { q := rest, all_items := items } = f :: rest
    rw [ih]

/-- Successive `pop` calls deliver exactly the FIFO contents, oldest
first. -/
theorem popAll_eq_q (s : SetQueue) : popAll s = s.q := by
  cases s with
  | mk q items => exact popAll_mk q items

/-- Effect of one `put` on the seen-key predicate. -/
theorem seen_put (s : SetQueue) (x : File) (k : String) :
    seen (SetQueue.put s x) k = (seen s k || (x.file.id == k)) := by
  unfold SetQueue.put
  split
  · rename_i hmem
    by_cases hk : x.file.id = k
    · have hs : seen s k = true := by
        unfold fileMem at hmem
        unfold seen
        simp only [List.any_eq_true, beq_iff_eq] at hmem ⊢
        obtain ⟨y, hy, hyx⟩ := hmem
        exact ⟨y, hy, by rw [hyx, hk]⟩
      simp [hs]
    · simp [hk]
  · unfold seen
    simp [List.any_append]

/-- One `put` preserves the dedup invariant: each key occurs in the FIFO
exactly once if it has been seen and zero times otherwise. -/
theorem countId_put (s : SetQueue) (x : File)
    (hinv : ∀ k, countId k s.q = if seen s k then 1 else 0) (k : String) :
    countId k (SetQueue.put s x).q = if seen (SetQueue.put s x) k then 1 else 0 := by
  rw [seen_put]
  by_cases hmem : fileMem s.all_items x
  · rw [show SetQueue.put s x = s by unfold SetQueue.put; simp [hmem]]
    by_cases hk : x.file.id = k
    · have hs : seen s k = true := by
        unfold fileMem at hmem
        unfold seen
        simp only [List.any_eq_true, beq_iff_eq] at hmem ⊢
        obtain ⟨y, hy, hyx⟩ := hmem
        exact ⟨y, hy, by rw [hyx, hk]⟩
      simp [hs, hinv k]
    · simp only [show (x.file.id == k) = false by simpa using hk, Bool.or_false]
      exact hinv k
  · rw [show SetQueue.put s x =
        { q := s.q ++ [x], all_items := s.all_items ++ [x] } by
      unfold SetQueue.put; simp [hmem]]
    have hxk : countId k (s.q ++ [x]) =
        countId k s.q + (if (x.file.id == k) = true then 1 else 0) := by
      unfold countId
      rw [List.filter_append, List.length_append]
      congr 1
      by_cases hk : (x.file.id == k) = true
      · simp [List.filter_cons, hk]
      · simp [List.filter_cons, hk]
    rw [hxk, hinv k]
    by_cases hk : x.file.id = k
    · have hseen : seen s k = false := by
        unfold seen
        rw [List.any_eq_false]
        intro y hy
        simp only [beq_iff_eq]
        intro hcon
        apply hmem
        unfold fileMem
        simp only [List.any_eq_true, beq_iff_eq]
        exact ⟨y, hy, by rw [hcon, hk]⟩
      simp [hseen, hk]
    · have hbk : (x.file.id == k) = false := by simpa using hk
      simp [hbk]

/-- Folding `put` over a push sequence keeps the dedup invariant and
extends the seen predicate by exactly the pushed keys. -/
theorem runPut_spec (pushes : List File) :
    ∀ (s : SetQueue), (∀ k, countId k s.q = if seen s k then 1 else 0) →
      (∀ k, countId k (pushes.foldl SetQueue.put s).q =
        if seen (pushes.foldl SetQueue.put s) k then 1 else 0) ∧
      (∀ k, seen (pushes.foldl SetQueue.put s) k =
        (seen s k || pushes.any (fun f => f.file.id == k))) := by
  induction pushes with
  | nil =>
    intro s hinv
    exact ⟨hinv, fun k => by simp⟩
  | cons x rest ih =>
    intro s hinv
    have hput := countId_put s x hinv
    have hrec := ih (SetQueue.put s x) hput
    refine ⟨hrec.1, fun k => ?_⟩
    rw [List.foldl_cons, hrec.2 k, seen_put]
    simp [Bool.or_assoc]

/-- The historical seen set only ever grows under further pushes. -/
theorem all_items_sublist_foldl (more : List File) :
    ∀ (s : SetQueue),
      s.all_items.Sublist ((more.foldl SetQueue.put s).all_items) := by
  induction more with
  | nil => intro s; simp
  | cons x rest ih =>
    intro s
    refine List.Sublist.trans ?_ (ih (SetQueue.put s x))
    unfold SetQueue.put
    split
    · exact List.Sublist.refl _
    · simp

/-- C1: on one `SetQueue` instance, any push sequence delivers via `pop`
exactly one entry per pushed file identifier — later pushes of an already
seen key, under the same or a different member, are silent no-ops — and
the historical seen record is never cleared: it only grows under further
pushes. -/
theorem C1_dedup_insert_once_ever (pushes : List File) (k : String)
    (more : List File) :
    countId k (popAll (runPushes pushes)) =
        (if pushes.any (fun f => f.file.id == k) then 1 else 0) ∧
      (runPushes pushes).all_items.Sublist
        ((runPushes (pushes ++ more)).all_items) := by
  constructor
  · rw [popAll_eq_q]
    have hinv : ∀ k, countId k SetQueue.empty.q =
        if seen SetQueue.empty k then 1 else 0 := by
      intro k; simp [countId, seen, SetQueue.empty]
    have h := runPut_spec pushes SetQueue.empty hinv
    rw [runPushes, h.1 k, h.2 k]
    simp [seen, SetQueue.empty]
  · rw [runPushes, runPushes, List.foldl_append]
    exact all_items_sublist_foldl more _

/-- On any queue state, the drain loop hands every queued file to
`save_file` in FIFO order and then parks forever inside `get`. -/
theorem drainLoop_mk (l : List File) :
    ∀ items, drainLoop { q := l, all_items := items } =
      (l, DrainEnd.blockedForever) := by
  induction l with
  | nil =>
    intro items
    rw [drainLoop]
    exact rfl
  | cons f rest ih =>
    intro items
    rw [drainLoop]
    show (f :: (drainLoop { q := rest, all_items := items }).1,
        (drainLoop { q := rest, all_items := items }).2) =
      (f :: rest, DrainEnd.blockedForever)
    rw [ih]

/-- C2: the drain loop never reaches the `queue.Empty` handler — a
blocking `get` with no timeout never raises `queue.Empty`, so once the
queue is exhausted the loop blocks forever instead of stopping; evaluated
on a run with one member and one qualifying file, the file is handed to
`save_file` and the program then hangs. -/
theorem C2_drain_loop_blocks_forever :
    (∀ s : SetQueue,
        (drainLoop s).2 = DrainEnd.blockedForever ∧
          (drainLoop s).2 ≠ DrainEnd.emptySignalled) ∧
      list_and_save argsEx [(memberEx, [REntry.file metaEx])] =
        ([fileEx], DrainEnd.blockedForever) := by
  constructor
  · intro s
    cases s with
    | mk l items =>
      rw [drainLoop_mk l items]
      exact ⟨rfl, by simp⟩
  · have h1 : filesOfEntries memberEx argsEx [REntry.file metaEx] =
        [{ file := metaEx, member := memberEx }] := by
      simp [filesOfEntries, should_download, metaEx, argsEx]
    have hlf : list_files memberEx argsEx [REntry.file metaEx] = [fileEx] := by
      rw [list_files, h1]
      rfl
    have hfill : fill [(memberEx, [REntry.file metaEx])] argsEx =
        { q := [fileEx], all_items := [fileEx] } := by
      simp [fill, hlf, SetQueue.put, fileMem, SetQueue.empty]
    unfold list_and_save
    rw [hfill, drainLoop_mk]

/-- The page loop of `list_members`, started anywhere in the page chain
with sufficient fuel, yields exactly the members of the pages up to and
including the first page whose has-more flag is false. -/
theorem list_members_aux_chain (svc : TeamService) (N : Nat) :
    ∀ (start fuel : Nat), N ≤ fuel →
      (∀ i, i < N → (membersChain svc (start + i)).has_more = true) →
      (membersChain svc (start + N)).has_more = false →
      list_members_aux svc fuel (membersChain svc start) =
        ((List.range (N + 1)).map
          (fun i => (membersChain svc (start + i)).members)).flatten := by
  induction N with
  | zero =>
    intro start fuel _ _ hlast
    simp only [Nat.add_zero] at hlast
    have hr : ((List.range 1).map
          (fun i => (membersChain svc (start + i)).members)).flatten =
        (membersChain svc start).members := by
      simp [List.range_succ]
    cases fuel with
    | zero => rw [hr]; rfl
    | succ f =>
      rw [hr, list_members_aux, hlast]
      simp
  | succ n ih =>
    intro start fuel hfuel hall hlast
    cases fuel with
    | zero => omega
    | succ f =>
      have h0 : (membersChain svc start).has_more = true := by
        have := hall 0 (by omega)
        simpa using this
      have hstep : svc.cont (membersChain svc start).cursor =
          membersChain svc (start + 1) := rfl
      have hrec := ih (start + 1) f (by omega)
        (by
          intro i hi
          have := hall (i + 1) (by omega)
          have harith : start + (i + 1) = start + 1 + i := by omega
          rwa [harith] at this)
        (by
          have harith : start + (n + 1) = start + 1 + n := by omega
          rwa [harith] at hlast)
      have hsplit : ((List.range (n + 1 + 1)).map
            (fun i => (membersChain svc (start + i)).members)).flatten =
          (membersChain svc start).members ++
            ((List.range (n + 1)).map
              (fun i => (membersChain svc (start + 1 + i)).members)).flatten := by
        rw [List.range_succ_eq_map]
        simp only [List.map_cons, List.flatten_cons, List.map_map, Nat.add_zero]
        congr 1
        congr 1
        apply List.map_congr_left
        intro i _
        simp only [Function.comp_apply]
        have harith : start + Nat.succ i = start + 1 + i := by omega
        rw [harith]
      rw [list_members_aux, h0, if_pos rfl, hstep, hrec, hsplit]

/-- C6: `list_members` requests continuation pages exactly while the
has-more flag is true and then terminates (the result does not depend on
surplus fuel), yielding every member of every page exactly once, in
service order. -/
theorem C6_list_members_all_pages (svc : TeamService) (N : Nat)
    (hall : ∀ i, i < N → (membersChain svc i).has_more = true)
    (hlast : (membersChain svc N).has_more = false) :
    ∀ fuel, N ≤ fuel →
      list_members svc fuel =
        ((List.range (N + 1)).map
          (fun i => (membersChain svc i).members)).flatten := by
  intro fuel hfuel
  have h := list_members_aux_chain svc N 0 fuel hfuel
    (by intro i hi; simpa using hall i hi)
    (by simpa using hlast)
  simpa [list_members] using h

/-- Closed witness for C6: the two-page service yields the members of both
pages, in order, with any fuel at least the page count. -/
theorem C6_witness_two_pages :
    list_members svcEx 3 = [memberEx, memberEx2, memberEx3] := by
  have h := C6_list_members_all_pages svcEx 1
    (by decide) (by decide) 3 (by omega)
  rw [h]
  rfl

/-- C7: `save_file` returns normally on every input of the modelled
failure modes: a path-too-long `FileNotFoundError` from directory creation
is caught and turned into a logged abandonment, and any exception from the
download step is caught and logged, so no per-file failure propagates. -/
theorem C7_save_file_never_raises (env : DownloadEnv) (file : File)
    (root : String) :
    (∃ o, save_file env file root = Except.ok o) ∧
    (∀ msg,
      env.makedirs (dirname (save_file_local_path root file.file.path_display)) =
          MakedirsResult.fileNotFound msg →
        save_file env file root = Except.ok (SaveOutcome.dirCreateFailed msg)) ∧
    (∀ msg,
      env.makedirs (dirname (save_file_local_path root file.file.path_display)) =
          MakedirsResult.ok →
      env.download file.member.team_member_id
          (save_file_local_path root file.file.path_display)
          file.file.path_display = Except.error msg →
        save_file env file root =
          Except.ok (SaveOutcome.downloadFailed
            (save_file_local_path root file.file.path_display) msg)) := by
  refine ⟨?_, ?_, ?_⟩
  · rcases hmk : env.makedirs
        (dirname (os_path_join root (remove_unprintable file.file.path_display)))
      with _ | msg
    · rcases hdl : env.download file.member.team_member_id
          (os_path_join root (remove_unprintable file.file.path_display))
          file.file.path_display with msg | u
      · simp [save_file, hmk, hdl]
      · simp [save_file, hmk, hdl]
    · simp [save_file, hmk]
  · intro msg hmk
    rw [save_file_local_path] at hmk
    simp [save_file, hmk]
  · intro msg hmk hdl
    rw [save_file_local_path] at hmk hdl ⊢
    simp [save_file, hmk, hdl]

/-- Closed witness for C7: both caught failure modes at concrete
inputs. -/
theorem C7_witness_failures :
    save_file envLongPath fileEx "backup" =
        Except.ok (SaveOutcome.dirCreateFailed "path too long") ∧
      save_file envRaise fileEx "backup" =
        Except.ok (SaveOutcome.downloadFailed "/docs/report.txt" "ApiError") := by
  constructor
  · exact (C7_save_file_never_raises envLongPath fileEx "backup").2.1
      "path too long" rfl
  · exact (C7_save_file_never_raises envRaise fileEx "backup").2.2
      "ApiError" rfl rfl

/-- Discovery never reads the configured `limit` field: the generator body
yields the same sequence under any value of it. -/
theorem filesOfEntries_limit_irrel (m : Member) (a : Args) (nl : Option Nat) :
    ∀ entries, filesOfEntries m { a with limit := nl } entries =
      filesOfEntries m a entries := by
  intro entries
  induction entries using filesOfEntries.induct m a with
  | case1 => simp only [filesOfEntries]
  | case2 meta rest ih =>
    simp only [filesOfEntries]
    have hsd : should_download meta { a with limit := nl } =
        should_download meta a := rfl
    rw [hsd, ih]
  | case3 p sub rest ih_sub ih_rest =>
    simp only [filesOfEntries]
    rw [ih_sub, ih_rest]

/-- C10: the sequence yielded by discovery is independent of the
configured per-member limit — two configurations differing only in the
`limit` field produce identical sequences at the top level and at every
recursive invocation — because the truncation bound is the fixed literal
10 per invocation. -/
theorem C10_discovery_independent_of_limit (m : Member) (a : Args)
    (nl : Option Nat) (entries : List REntry) :
    list_files m { a with limit := nl } entries = list_files m a entries ∧
    filesOfEntries m { a with limit := nl } entries =
      filesOfEntries m a entries ∧
    list_files m a entries = limit 10 (filesOfEntries m a entries) := by
  refine ⟨?_, filesOfEntries_limit_irrel m a nl entries, rfl⟩
  unfold list_files
  rw [filesOfEntries_limit_irrel m a nl entries]

/-- C4: code evaluation at the failing input — with a configured cap of 5
and a member exposing 12 qualifying files, `list_files` yields the first
10 files in yield order: the decorator bound is the hardcoded literal 10,
and the parsed `--limit` value is never consulted. -/
theorem C4_configured_cap_not_applied :
    argsK5.limit = some 5 ∧
    list_files memberEx argsK5 files12 =
      [fileAt 0, fileAt 1, fileAt 2, fileAt 3, fileAt 4,
       fileAt 5, fileAt 6, fileAt 7, fileAt 8, fileAt 9] ∧
    (list_files memberEx argsK5 files12).length = 10 := by
  have h : filesOfEntries memberEx argsK5 files12 =
      [fileAt 0, fileAt 1, fileAt 2, fileAt 3, fileAt 4, fileAt 5,
       fileAt 6, fileAt 7, fileAt 8, fileAt 9, fileAt 10, fileAt 11] := by
    simp [files12, filesOfEntries, should_download, fmeta, argsK5, argsEx,
      fileAt]
  refine ⟨rfl, ?_, ?_⟩
  · rw [list_files, h]
    rfl
  · rw [list_files, h]
    rfl

end Backup
